import Mathlib

/-!
Shallow embedding of `blender-spritesheets/operators/renderSpriteSheet.py`.

The Python module implements a Blender modal operator that renders every
action of a scene to a sprite sheet, one frame per timer tick.  We embed
its state and step functions as pure Lean definitions:

* `frame_count` is the module-level helper (lines 20-23 of the source).
* `SchedulerState` collects the operator's instance fields (`_actions`,
  `_action_index`, `_frame_queue`, `_frame_queue_index`,
  `_animation_descs`, `_global_frame_end`) together with the progress
  property group, an explicit lifecycle phase modelling the Blender
  modal-operator lifecycle (Idle = before `invoke`; Running = the modal
  handler and timer are installed; Finished / Cancelled = the handler was
  removed by returning FINISHED / CANCELLED), a log of the frame numbers
  sent to the external render collaborator
  (`bpy.ops.spritesheets.render_tile`), and a counter of how many times
  the completion handoff (`finish`) ran.
* `invoke`, `setup_next_action`, `process_step`, `tick` (one TIMER event
  of `modal`), `cancel` and `finish` translate the correspondingly named
  methods.  External effects (setting the scene frame, the render call,
  the assembler subprocess, JSON serialization, timer management) are
  out of scope; only their occurrence is recorded where a claim needs it.

Frame-range bounds are real-valued in Blender; we model them as rationals,
with `Int.floor` / `Int.ceil` standing for Python's `math.floor` /
`math.ceil`.
-/

set_option maxRecDepth 4000

namespace SpriteSheets

/-- A pose marker of an action (one entry of Blender's
`action.pose_markers`): a name and a frame number. -/
structure PoseMarker where
  name : String
  frame : Int
deriving Repr, DecidableEq, Inhabited

/-- An action (one entry of `bpy.data.actions`): a name, a real-valued
frame range, and the ordered list of pose markers as the action defines
them. -/
structure Action where
  name : String
  frame_range : ℚ × ℚ
  pose_markers : List PoseMarker
deriving Repr, DecidableEq, Inhabited

/-- `frame_count(frame_range)` (source lines 20-23): returns
`(frameMax - frameMin, frameMin, frameMax)` where `frameMin` is the floor
of the range's start and `frameMax` the ceiling of its end
(`math.floor` / `math.ceil`, embedded as `Rat.floor` / `Rat.ceil`; the
lemmas `rat_floor_eq` and `rat_ceil_eq` below identify these with
Mathlib's `Int.floor` / `Int.ceil`). -/
def frame_count (frame_range : ℚ × ℚ) : Int × Int × Int :=
  let frameMin := Rat.floor frame_range.1
  let frameMax := Rat.ceil frame_range.2
  (frameMax - frameMin, frameMin, frameMax)

/-- Auxiliary fact about integer (Euclidean) division: dividing `-a` by a
positive non-divisor `b` of `a` gives `-(a / b) - 1`. -/
theorem neg_ediv_of_not_dvd {a b : ℤ} (hb : 0 < b) (hnd : ¬ b ∣ a) :
    (-a) / b = -(a / b) - 1 := by
  have hmod0 : a % b ≠ 0 := fun h => hnd (Int.dvd_of_emod_eq_zero h)
  have hmodpos : 0 < a % b := lt_of_le_of_ne (Int.emod_nonneg a (ne_of_gt hb)) (Ne.symm hmod0)
  have hmodlt : a % b < b := Int.emod_lt_of_pos a hb
  have key := (@Int.ediv_emod_unique (-a) b (b - a % b) (-(a / b) - 1) hb).mpr
  refine (key ⟨?_, by omega, by omega⟩).1
  have := Int.ediv_add_emod a b
  ring_nf
  omega

/-- `Rat.floor` agrees with Mathlib's floor on ℚ. -/
theorem rat_floor_eq (q : ℚ) : q.floor = ⌊q⌋ := by
  rw [Rat.floor_def', ← Rat.floor_def]

/-- `Rat.ceil` agrees with Mathlib's ceiling on ℚ. -/
theorem rat_ceil_eq (q : ℚ) : q.ceil = ⌈q⌉ := by
  have h1 : ⌈q⌉ = -⌊-q⌋ := by rw [Int.floor_neg, neg_neg]
  rw [h1, ← rat_floor_eq]
  show Rat.ceil q = -Rat.floor (-q)
  unfold Rat.ceil Rat.floor
  simp only [Rat.neg_num, Rat.neg_den]
  by_cases hden : q.den = 1
  · simp [hden]
  · have hdpos : 0 < (q.den : ℤ) := Int.natCast_pos.mpr q.pos
    have hnd : ¬ ((q.den : ℤ) ∣ q.num) := by
      intro hdvd
      have h2 : q.den ∣ q.num.natAbs := Int.natCast_dvd_natCast.mp (Int.dvd_natAbs.mpr hdvd)
      exact hden (Nat.Coprime.eq_one_of_dvd q.reduced.symm h2)
    rw [if_neg hden, if_neg hden, neg_ediv_of_not_dvd hdpos hnd]
    omega

/-- Python's `list(range(lo, hi + 1))` over integers: the integers from
`lo` to `hi` inclusive (empty when `hi < lo`). -/
def intRangeIncl (lo hi : Int) : List Int :=
  (List.range (hi + 1 - lo).toNat).map (fun (k : Nat) => lo + (k : Int))

/-- Frame-queue enumeration performed inside `setup_next_action`
(source lines 111-119): if `onlyRenderMarkedFrames` is set and the action
has pose markers, the queue is the markers' frame numbers in source
order; otherwise it is the inclusive integer range from the floor of the
range start to the ceiling of the range end. -/
def enumerate (a : Action) (onlyMarked : Bool) : List Int :=
  if onlyMarked = true ∧ 0 < a.pose_markers.length then
    a.pose_markers.map PoseMarker.frame
  else
    intRangeIncl (frame_count a.frame_range).2.1 (frame_count a.frame_range).2.2

/-- The `ProgressPropertyGroup` fields touched by the operator. -/
structure ProgressPropertyGroup where
  rendering : Bool
  success : Bool
  actionTotal : Nat
  actionName : String
  actionIndex : Nat
  tileTotal : Nat
  tileIndex : Int
deriving Repr, DecidableEq, Inhabited

/-- Lifecycle phase of the modal operator (spec section 4.2):
Idle before `invoke`, Running while the modal handler is installed,
Finished / Cancelled after `modal` returned FINISHED / CANCELLED and the
handler was removed. -/
inductive Phase where
  | Idle
  | Running
  | Finished
  | Cancelled
deriving Repr, DecidableEq, Inhabited

/-- The operator's mutable state: its instance fields, the progress
property group, the lifecycle phase, the log of frames handed to the
render collaborator, and the number of completion handoffs performed. -/
structure SchedulerState where
  actions : List Action
  actionIndex : Nat
  frameQueue : List Int
  frameQueueIndex : Nat
  animationDescs : List (String × Int)
  globalFrameEnd : Int
  progress : ProgressPropertyGroup
  phase : Phase
  renderedFrames : List Int
  finishCount : Nat
deriving Repr, DecidableEq, Inhabited

/-- `setup_next_action` (source lines 89-131): set the current action's
name and index in the progress group, rebuild the frame queue via the
marked/range enumeration, reset the queue position, add the
interval-derived count `frame_count(...).1` to `_global_frame_end` and
append the descriptor pair (action name, new cumulative end). -/
def setup_next_action (onlyMarked : Bool) (s : SchedulerState) : SchedulerState :=
  let current_action := s.actions.getD s.actionIndex default
  let q := enumerate current_action onlyMarked
  let count := (frame_count current_action.frame_range).1
  { s with
    frameQueue := q
    frameQueueIndex := 0
    globalFrameEnd := s.globalFrameEnd + count
    animationDescs := s.animationDescs ++ [(current_action.name, s.globalFrameEnd + count)]
    progress := { s.progress with
      actionName := current_action.name
      actionIndex := s.actionIndex
      tileTotal := q.length } }

/-- `process_step` (source lines 133-156): if the current queue is
exhausted, advance the action index and, when actions remain, set up the
next action (no render request); otherwise render exactly the one frame
at the current queue position, record it in the progress group, and
advance the queue position. -/
def process_step (onlyMarked : Bool) (s : SchedulerState) : SchedulerState :=
  if s.frameQueue.length ≤ s.frameQueueIndex then
    if s.actionIndex + 1 < s.actions.length then
      setup_next_action onlyMarked { s with actionIndex := s.actionIndex + 1 }
    else
      { s with actionIndex := s.actionIndex + 1 }
  else
    { s with
      renderedFrames := s.renderedFrames ++ [s.frameQueue.getD s.frameQueueIndex 0]
      progress := { s.progress with tileIndex := s.frameQueue.getD s.frameQueueIndex 0 }
      frameQueueIndex := s.frameQueueIndex + 1 }

/-- `finish` (source lines 158-195), the completion handoff: removes the
timer, runs the assembler, writes the JSON metadata (external effects,
counted by `finishCount`), and sets `rendering := false`,
`success := true`.  The phase becomes Finished because `modal` returns
FINISHED right after calling `finish`. -/
def finish (s : SchedulerState) : SchedulerState :=
  { s with
    phase := Phase.Finished
    finishCount := s.finishCount + 1
    progress := { s.progress with rendering := false, success := true } }

/-- One TIMER event of `modal` (source lines 69-87) when the handler is
installed: perform one `process_step`, then finish if the action index
has reached the action count.  When the handler is not installed (phase
is not Running) nothing runs. -/
def tick (onlyMarked : Bool) (s : SchedulerState) : SchedulerState :=
  if s.phase = Phase.Running then
    if (process_step onlyMarked s).actions.length ≤ (process_step onlyMarked s).actionIndex then
      finish (process_step onlyMarked s)
    else
      process_step onlyMarked s
  else s

/-- `cancel` (source lines 197-202), reachable from `modal` on an ESC
event while the handler is installed: removes the timer, clears the
rendering flag, reports, and returns CANCELLED (phase Cancelled).  Once
the phase is terminal the handler is gone, so nothing runs. -/
def cancel (s : SchedulerState) : SchedulerState :=
  if s.phase = Phase.Running then
    { s with
      phase := Phase.Cancelled
      progress := { s.progress with rendering := false } }
  else s

/-- Result value of `invoke`: CANCELLED or RUNNING_MODAL. -/
inductive InvokeResult where
  | Cancelled
  | RunningModal
deriving Repr, DecidableEq

/-- `invoke` (source lines 40-67): set the progress flags and totals,
reset the action list, action index, descriptor list and cumulative
count, then — only after those mutations — check for an empty action
list (report a warning and return CANCELLED), else set up the first
action, install the timer and modal handler (phase Running) and return
RUNNING_MODAL.  `_frame_queue` and `_frame_queue_index` are not reset by
`invoke` itself, faithfully to the source. -/
def invoke (actions : List Action) (onlyMarked : Bool) (s0 : SchedulerState) :
    InvokeResult × SchedulerState :=
  let s1 := { s0 with
    progress := { s0.progress with
      rendering := true
      success := false
      actionTotal := actions.length }
    actions := actions
    actionIndex := 0
    animationDescs := []
    globalFrameEnd := 0 }
  if actions.isEmpty then
    (InvokeResult.Cancelled, s1)
  else
    (InvokeResult.RunningModal, { setup_next_action onlyMarked s1 with phase := Phase.Running })

/-- `run n s`: drive the operator with `n` successive TIMER events. -/
def run (onlyMarked : Bool) : Nat → SchedulerState → SchedulerState
  | 0, s => s
  | n + 1, s => run onlyMarked n (tick onlyMarked s)

/-- The operator state before `invoke`: fresh class-level defaults and an
idle progress group. -/
def initState : SchedulerState :=
  { actions := []
    actionIndex := 0
    frameQueue := []
    frameQueueIndex := 0
    animationDescs := []
    globalFrameEnd := 0
    progress := { rendering := false, success := false, actionTotal := 0,
                  actionName := "", actionIndex := 0, tileTotal := 0, tileIndex := 0 }
    phase := Phase.Idle
    renderedFrames := []
    finishCount := 0 }

/-- The state reached from a fresh operator by `invoke` followed by `n`
TIMER events. -/
def runFromStart (actions : List Action) (onlyMarked : Bool) (n : Nat) : SchedulerState :=
  run onlyMarked n (invoke actions onlyMarked initState).2

/-- The rational 2.2, written with an explicit numerator and denominator
(see `ratq_22` below). -/
def q22 : ℚ := ⟨11, 5, by decide, by decide⟩

/-- The rational 5.6, written with an explicit numerator and denominator
(see `ratq_56` below). -/
def q56 : ℚ := ⟨28, 5, by decide, by decide⟩

/-- `q22` is the rational number 2.2. -/
theorem ratq_22 : q22 = (2.2 : ℚ) := by
  rw [q22, Rat.mk'_eq_divInt, Rat.divInt_eq_div]
  norm_num

/-- `q56` is the rational number 5.6. -/
theorem ratq_56 : q56 = (5.6 : ℚ) := by
  rw [q56, Rat.mk'_eq_divInt, Rat.divInt_eq_div]
  norm_num

/-- Interval-derived frame count of an action: the first component of
`frame_count`, i.e. the ceiling of the range end minus the floor of the
range start. -/
def icount (a : Action) : Int := (frame_count a.frame_range).1

/-- Sum of the interval-derived counts of the first `k` actions. -/
def sumIcount (actions : List Action) (k : Nat) : Int :=
  ((actions.take k).map icount).sum

/-- The descriptor list produced after the first `k` actions have become
current: one pair (name, cumulative interval-derived count) per action,
in order. -/
def expectedDescs (actions : List Action) (k : Nat) : List (String × Int) :=
  (List.range k).map (fun j => ((actions.getD j default).name, sumIcount actions (j + 1)))

/-- Length of the enumerated frame queue of an action. -/
def queueLen (onlyMarked : Bool) (a : Action) : Nat :=
  (enumerate a onlyMarked).length

/-- Total number of frames rendered by the first `i` actions. -/
def renderedBefore (onlyMarked : Bool) (actions : List Action) (i : Nat) : Nat :=
  ((actions.take i).map (queueLen onlyMarked)).sum

/-- Number of TIMER ticks still needed to reach the Finished phase from a
running state: the remaining frames of the current queue, one transition
tick for the current action, and queue length plus one transition tick
for every later action. -/
def remTicks (onlyMarked : Bool) (s : SchedulerState) : Nat :=
  (s.frameQueue.length - s.frameQueueIndex + 1) +
    ((s.actions.drop (s.actionIndex + 1)).map (fun a => queueLen onlyMarked a + 1)).sum

/-- Total number of TIMER ticks of a full run: queue length plus one
transition tick per action. -/
def totalTicks (onlyMarked : Bool) (actions : List Action) : Nat :=
  (actions.map (fun a => queueLen onlyMarked a + 1)).sum

/-- Invariant of every reachable state whose phase is Running: the
action list is fixed, the action index is in range, the frame queue is
the enumeration of the current action with the position inside it, the
cumulative count and descriptor list cover exactly the actions that have
become current, the completion handoff has not run, the success flag is
clear, and the render log counts the finished queues plus the current
position. -/
structure RunInv (onlyMarked : Bool) (actions : List Action) (s : SchedulerState) : Prop where
  hphase : s.phase = Phase.Running
  hacts : s.actions = actions
  hlt : s.actionIndex < actions.length
  hqueue : s.frameQueue = enumerate (actions.getD s.actionIndex default) onlyMarked
  hqle : s.frameQueueIndex ≤ s.frameQueue.length
  hgfe : s.globalFrameEnd = sumIcount actions (s.actionIndex + 1)
  hdescs : s.animationDescs = expectedDescs actions (s.actionIndex + 1)
  hfc : s.finishCount = 0
  hsucc : s.progress.success = false
  hrend : s.renderedFrames.length = renderedBefore onlyMarked actions s.actionIndex + s.frameQueueIndex

/-- Invariant of every reachable state whose phase is Finished: the
action index has run off the end, the descriptor list covers all
actions, the completion handoff ran exactly once, the success flag is
set, and every queue was rendered in full. -/
structure FinInv (onlyMarked : Bool) (actions : List Action) (s : SchedulerState) : Prop where
  hphase : s.phase = Phase.Finished
  hacts : s.actions = actions
  hidx : s.actionIndex = actions.length
  hdescs : s.animationDescs = expectedDescs actions actions.length
  hfc : s.finishCount = 1
  hsucc : s.progress.success = true
  hrend : s.renderedFrames.length = renderedBefore onlyMarked actions actions.length

/-- Every reachable state of a started run is Running or Finished. -/
def GoodInv (onlyMarked : Bool) (actions : List Action) (s : SchedulerState) : Prop :=
  RunInv onlyMarked actions s ∨ FinInv onlyMarked actions s

theorem getD_default_eq {α : Type} [Inhabited α] (l : List α) (n : Nat) (h : n < l.length) :
    l.getD n default = l[n] := by
  rw [List.getD_eq_getElem?_getD, List.getElem?_eq_getElem h]
  rfl

theorem sumIcount_succ (actions : List Action) (k : Nat) (h : k < actions.length) :
    sumIcount actions (k + 1) = sumIcount actions k + icount (actions.getD k default) := by
  have h2 : k < (actions.map icount).length := by simpa using h
  unfold sumIcount
  rw [List.map_take, List.map_take, List.sum_take_succ _ _ h2, List.getElem_map,
    getD_default_eq actions k h]

theorem expectedDescs_length (actions : List Action) (k : Nat) :
    (expectedDescs actions k).length = k := by
  simp [expectedDescs]

theorem expectedDescs_succ (actions : List Action) (k : Nat) :
    expectedDescs actions (k + 1)
      = expectedDescs actions k
        ++ [((actions.getD k default).name, sumIcount actions (k + 1))] := by
  unfold expectedDescs
  rw [List.range_succ, List.map_append]
  rfl

theorem renderedBefore_succ (onlyMarked : Bool) (actions : List Action) (i : Nat)
    (h : i < actions.length) :
    renderedBefore onlyMarked actions (i + 1)
      = renderedBefore onlyMarked actions i + queueLen onlyMarked (actions.getD i default) := by
  have h2 : i < (actions.map (queueLen onlyMarked)).length := by simpa using h
  unfold renderedBefore
  rw [List.map_take, List.map_take, List.sum_take_succ _ _ h2, List.getElem_map,
    getD_default_eq actions i h]

theorem remTicks_pos (onlyMarked : Bool) (s : SchedulerState) : 0 < remTicks onlyMarked s := by
  unfold remTicks
  omega

theorem drop_queue_sum_cons (onlyMarked : Bool) (actions : List Action) (i : Nat)
    (h : i < actions.length) :
    ((actions.drop i).map (fun a => queueLen onlyMarked a + 1)).sum
      = (queueLen onlyMarked (actions.getD i default) + 1)
        + ((actions.drop (i + 1)).map (fun a => queueLen onlyMarked a + 1)).sum := by
  have h2 : i < (actions.map (fun a => queueLen onlyMarked a + 1)).length := by simpa using h
  rw [List.map_drop, List.map_drop, List.drop_eq_getElem_cons h2, List.sum_cons,
    List.getElem_map, getD_default_eq actions i h]

theorem setup_actions (onlyMarked : Bool) (s : SchedulerState) :
    (setup_next_action onlyMarked s).actions = s.actions := rfl

theorem setup_actionIndex (onlyMarked : Bool) (s : SchedulerState) :
    (setup_next_action onlyMarked s).actionIndex = s.actionIndex := rfl

theorem setup_phase (onlyMarked : Bool) (s : SchedulerState) :
    (setup_next_action onlyMarked s).phase = s.phase := rfl

theorem setup_renderedFrames (onlyMarked : Bool) (s : SchedulerState) :
    (setup_next_action onlyMarked s).renderedFrames = s.renderedFrames := rfl

theorem setup_finishCount (onlyMarked : Bool) (s : SchedulerState) :
    (setup_next_action onlyMarked s).finishCount = s.finishCount := rfl

theorem setup_frameQueue (onlyMarked : Bool) (s : SchedulerState) :
    (setup_next_action onlyMarked s).frameQueue
      = enumerate (s.actions.getD s.actionIndex default) onlyMarked := rfl

theorem setup_frameQueueIndex (onlyMarked : Bool) (s : SchedulerState) :
    (setup_next_action onlyMarked s).frameQueueIndex = 0 := rfl

theorem setup_globalFrameEnd (onlyMarked : Bool) (s : SchedulerState) :
    (setup_next_action onlyMarked s).globalFrameEnd
      = s.globalFrameEnd + icount (s.actions.getD s.actionIndex default) := rfl

theorem setup_animationDescs (onlyMarked : Bool) (s : SchedulerState) :
    (setup_next_action onlyMarked s).animationDescs
      = s.animationDescs
        ++ [((s.actions.getD s.actionIndex default).name,
             s.globalFrameEnd + icount (s.actions.getD s.actionIndex default))] := rfl

theorem setup_success (onlyMarked : Bool) (s : SchedulerState) :
    (setup_next_action onlyMarked s).progress.success = s.progress.success := rfl

theorem process_step_render (onlyMarked : Bool) (s : SchedulerState)
    (h : s.frameQueueIndex < s.frameQueue.length) :
    process_step onlyMarked s =
      { s with
        renderedFrames := s.renderedFrames ++ [s.frameQueue.getD s.frameQueueIndex 0]
        progress := { s.progress with tileIndex := s.frameQueue.getD s.frameQueueIndex 0 }
        frameQueueIndex := s.frameQueueIndex + 1 } := by
  unfold process_step
  rw [if_neg (by omega)]

theorem process_step_next (onlyMarked : Bool) (s : SchedulerState)
    (h : s.frameQueue.length ≤ s.frameQueueIndex) (h2 : s.actionIndex + 1 < s.actions.length) :
    process_step onlyMarked s
      = setup_next_action onlyMarked { s with actionIndex := s.actionIndex + 1 } := by
  unfold process_step
  rw [if_pos h, if_pos h2]

theorem process_step_last (onlyMarked : Bool) (s : SchedulerState)
    (h : s.frameQueue.length ≤ s.frameQueueIndex) (h2 : ¬ s.actionIndex + 1 < s.actions.length) :
    process_step onlyMarked s = { s with actionIndex := s.actionIndex + 1 } := by
  unfold process_step
  rw [if_pos h, if_neg h2]

theorem tick_not_running (onlyMarked : Bool) (s : SchedulerState)
    (h : s.phase ≠ Phase.Running) : tick onlyMarked s = s := by
  unfold tick
  rw [if_neg h]

theorem run_not_running (onlyMarked : Bool) (s : SchedulerState)
    (h : s.phase ≠ Phase.Running) : ∀ n, run onlyMarked n s = s := by
  intro n
  induction n with
  | zero => rfl
  | succ n ih =>
    show run onlyMarked n (tick onlyMarked s) = s
    rw [tick_not_running onlyMarked s h]
    exact ih

theorem cancel_not_running (s : SchedulerState) (h : s.phase ≠ Phase.Running) :
    cancel s = s := by
  unfold cancel
  rw [if_neg h]

theorem cancel_running (s : SchedulerState) (h : s.phase = Phase.Running) :
    cancel s
      = { s with
          phase := Phase.Cancelled
          progress := { s.progress with rendering := false } } := by
  unfold cancel
  rw [if_pos h]

/-- One TIMER tick from a reachable Running state: while more than one
tick remains the state stays Running with the invariant preserved and the
remaining-tick count goes down by exactly one; on the last remaining tick
the state transitions to Finished with the finishing invariant. -/
theorem tick_run_step (onlyMarked : Bool) (actions : List Action) (s : SchedulerState)
    (hInv : RunInv onlyMarked actions s) :
    (1 < remTicks onlyMarked s →
      RunInv onlyMarked actions (tick onlyMarked s) ∧
      remTicks onlyMarked (tick onlyMarked s) + 1 = remTicks onlyMarked s) ∧
    (remTicks onlyMarked s = 1 → FinInv onlyMarked actions (tick onlyMarked s)) := by
  obtain ⟨hphase, hacts, hlt, hqueue, hqle, hgfe, hdescs, hfc, hsucc, hrend⟩ := hInv
  have hql : s.frameQueue.length = queueLen onlyMarked (actions.getD s.actionIndex default) := by
    rw [hqueue]
    rfl
  by_cases hq : s.frameQueueIndex < s.frameQueue.length
  · -- render step: one frame is sent to the render collaborator
    have hps := process_step_render onlyMarked s hq
    have hcond : ¬ ((process_step onlyMarked s).actions.length
        ≤ (process_step onlyMarked s).actionIndex) := by
      rw [hps]
      show ¬ (s.actions.length ≤ s.actionIndex)
      rw [hacts]
      omega
    have hts : tick onlyMarked s = process_step onlyMarked s := by
      unfold tick
      rw [if_pos hphase, if_neg hcond]
    constructor
    · intro _
      constructor
      · rw [hts, hps]
        exact {
          hphase := hphase
          hacts := hacts
          hlt := hlt
          hqueue := hqueue
          hqle := by
            show s.frameQueueIndex + 1 ≤ s.frameQueue.length
            omega
          hgfe := hgfe
          hdescs := hdescs
          hfc := hfc
          hsucc := hsucc
          hrend := by
            show (s.renderedFrames ++ [s.frameQueue.getD s.frameQueueIndex 0]).length
              = renderedBefore onlyMarked actions s.actionIndex + (s.frameQueueIndex + 1)
            rw [List.length_append]
            simp only [List.length_cons, List.length_nil]
            omega }
      · rw [hts, hps]
        unfold remTicks
        show (s.frameQueue.length - (s.frameQueueIndex + 1) + 1)
            + ((s.actions.drop (s.actionIndex + 1)).map
                (fun a => queueLen onlyMarked a + 1)).sum + 1
          = (s.frameQueue.length - s.frameQueueIndex + 1)
            + ((s.actions.drop (s.actionIndex + 1)).map
                (fun a => queueLen onlyMarked a + 1)).sum
        omega
    · intro h1
      exfalso
      unfold remTicks at h1
      omega
  · -- transition step: the current queue is exhausted
    have hqe : s.frameQueueIndex = s.frameQueue.length := by omega
    by_cases h2 : s.actionIndex + 1 < s.actions.length
    · -- a later action exists: it becomes current
      have hlt2 : s.actionIndex + 1 < actions.length := by rwa [hacts] at h2
      have hps := process_step_next onlyMarked s (by omega) h2
      have hcond : ¬ ((process_step onlyMarked s).actions.length
          ≤ (process_step onlyMarked s).actionIndex) := by
        rw [hps]
        show ¬ (s.actions.length ≤ s.actionIndex + 1)
        omega
      have hts : tick onlyMarked s = process_step onlyMarked s := by
        unfold tick
        rw [if_pos hphase, if_neg hcond]
      constructor
      · intro _
        constructor
        · rw [hts, hps]
          exact {
            hphase := hphase
            hacts := hacts
            hlt := hlt2
            hqueue := by
              show enumerate (s.actions.getD (s.actionIndex + 1) default) onlyMarked
                = enumerate (actions.getD (s.actionIndex + 1) default) onlyMarked
              rw [hacts]
            hqle := Nat.zero_le _
            hgfe := by
              show s.globalFrameEnd + icount (s.actions.getD (s.actionIndex + 1) default)
                = sumIcount actions (s.actionIndex + 1 + 1)
              rw [hgfe, hacts, sumIcount_succ actions (s.actionIndex + 1) hlt2]
            hdescs := by
              show s.animationDescs
                  ++ [((s.actions.getD (s.actionIndex + 1) default).name,
                       s.globalFrameEnd + icount (s.actions.getD (s.actionIndex + 1) default))]
                = expectedDescs actions (s.actionIndex + 1 + 1)
              rw [hdescs, hgfe, hacts, expectedDescs_succ actions (s.actionIndex + 1),
                ← sumIcount_succ actions (s.actionIndex + 1) hlt2]
            hfc := hfc
            hsucc := hsucc
            hrend := by
              show s.renderedFrames.length
                = renderedBefore onlyMarked actions (s.actionIndex + 1) + 0
              rw [renderedBefore_succ onlyMarked actions s.actionIndex hlt]
              omega }
        · rw [hts, hps]
          unfold remTicks
          show ((enumerate (s.actions.getD (s.actionIndex + 1) default) onlyMarked).length - 0 + 1)
              + ((s.actions.drop (s.actionIndex + 1 + 1)).map
                  (fun a => queueLen onlyMarked a + 1)).sum + 1
            = (s.frameQueue.length - s.frameQueueIndex + 1)
              + ((s.actions.drop (s.actionIndex + 1)).map
                  (fun a => queueLen onlyMarked a + 1)).sum
          rw [hacts, drop_queue_sum_cons onlyMarked actions (s.actionIndex + 1) hlt2]
          simp only [queueLen]
          omega
      · intro h1
        exfalso
        unfold remTicks at h1
        rw [hacts, drop_queue_sum_cons onlyMarked actions (s.actionIndex + 1) hlt2] at h1
        omega
    · -- no later action: the run finishes on this tick
      have hlen : s.actionIndex + 1 = actions.length := by
        rw [hacts] at h2
        omega
      have hps := process_step_last onlyMarked s (by omega) h2
      have hcond : (process_step onlyMarked s).actions.length
          ≤ (process_step onlyMarked s).actionIndex := by
        rw [hps]
        show s.actions.length ≤ s.actionIndex + 1
        omega
      have hts : tick onlyMarked s = finish (process_step onlyMarked s) := by
        unfold tick
        rw [if_pos hphase, if_pos hcond]
      have hdropnil : actions.drop (s.actionIndex + 1) = [] := by
        rw [hlen]
        exact List.drop_length actions
      constructor
      · intro h1
        exfalso
        unfold remTicks at h1
        rw [hacts, hdropnil] at h1
        simp only [List.map_nil, List.sum_nil] at h1
        omega
      · intro _
        rw [hts, hps]
        exact {
          hphase := rfl
          hacts := hacts
          hidx := hlen
          hdescs := by
            show s.animationDescs = expectedDescs actions actions.length
            rw [hdescs, hlen]
          hfc := by
            show s.finishCount + 1 = 1
            omega
          hsucc := rfl
          hrend := by
            show s.renderedFrames.length = renderedBefore onlyMarked actions actions.length
            rw [← hlen, renderedBefore_succ onlyMarked actions s.actionIndex hlt]
            omega }

/-- From any Running state satisfying the invariant, exactly
`remTicks` further ticks reach Finished, and every strictly earlier
state is still Running. -/
theorem run_from_runinv (onlyMarked : Bool) (actions : List Action) :
    ∀ k s, RunInv onlyMarked actions s → remTicks onlyMarked s = k →
      FinInv onlyMarked actions (run onlyMarked k s) ∧
      ∀ m, m < k → (run onlyMarked m s).phase = Phase.Running := by
  intro k
  induction k with
  | zero =>
    intro s hInv hrem
    exact absurd hrem (by
      have := remTicks_pos onlyMarked s
      omega)
  | succ k ih =>
    intro s hInv hrem
    by_cases hk : k = 0
    · subst hk
      have hfin := (tick_run_step onlyMarked actions s hInv).2 hrem
      constructor
      · exact hfin
      · intro m hm
        have hm0 : m = 0 := by omega
        subst hm0
        exact hInv.hphase
    · have h1 : 1 < remTicks onlyMarked s := by omega
      obtain ⟨hInv2, hrem2⟩ := (tick_run_step onlyMarked actions s hInv).1 h1
      have hrem3 : remTicks onlyMarked (tick onlyMarked s) = k := by omega
      obtain ⟨hfin, hrun⟩ := ih (tick onlyMarked s) hInv2 hrem3
      constructor
      · exact hfin
      · intro m hm
        cases m with
        | zero => exact hInv.hphase
        | succ m2 =>
          show (run onlyMarked m2 (tick onlyMarked s)).phase = Phase.Running
          exact hrun m2 (by omega)

/-- A tick preserves the Running-or-Finished invariant. -/
theorem goodinv_tick (onlyMarked : Bool) (actions : List Action) (s : SchedulerState)
    (h : GoodInv onlyMarked actions s) : GoodInv onlyMarked actions (tick onlyMarked s) := by
  rcases h with hrun | hfin
  · have hpos := remTicks_pos onlyMarked s
    by_cases h1 : remTicks onlyMarked s = 1
    · exact Or.inr ((tick_run_step onlyMarked actions s hrun).2 h1)
    · exact Or.inl ((tick_run_step onlyMarked actions s hrun).1 (by omega)).1
  · rw [tick_not_running onlyMarked s (by rw [hfin.hphase]; intro hc; cases hc)]
    exact Or.inr hfin

/-- Any number of ticks preserves the Running-or-Finished invariant. -/
theorem goodinv_run (onlyMarked : Bool) (actions : List Action) (n : Nat) :
    ∀ s, GoodInv onlyMarked actions s → GoodInv onlyMarked actions (run onlyMarked n s) := by
  induction n with
  | zero => exact fun s h => h
  | succ n ih =>
    intro s h
    exact ih (tick onlyMarked s) (goodinv_tick onlyMarked actions s h)

/-- `invoke` on a fresh operator with a non-empty action list yields a
Running state satisfying the invariant at action 0, queue position 0,
with the whole run still ahead of it. -/
theorem invoke_runinv (onlyMarked : Bool) (actions : List Action) (h : actions ≠ []) :
    RunInv onlyMarked actions (invoke actions onlyMarked initState).2 ∧
    remTicks onlyMarked (invoke actions onlyMarked initState).2 = totalTicks onlyMarked actions := by
  have h0 : 0 < actions.length := List.length_pos.mpr h
  have hne : actions.isEmpty = false := by
    rw [← Bool.not_eq_true, List.isEmpty_iff]
    exact h
  have hinv : (invoke actions onlyMarked initState).2
      = { setup_next_action onlyMarked
            { initState with
              progress := { initState.progress with
                rendering := true
                success := false
                actionTotal := actions.length }
              actions := actions
              actionIndex := 0
              animationDescs := []
              globalFrameEnd := 0 } with phase := Phase.Running } := by
    unfold invoke
    rw [hne]
    rfl
  constructor
  · rw [hinv]
    exact {
      hphase := rfl
      hacts := rfl
      hlt := h0
      hqueue := rfl
      hqle := Nat.zero_le _
      hgfe := by
        show (0 : Int) + icount (actions.getD 0 default) = sumIcount actions 1
        rw [sumIcount_succ actions 0 h0]
        show (0 : Int) + icount (actions.getD 0 default)
          = ((actions.take 0).map icount).sum + icount (actions.getD 0 default)
        simp
      hdescs := by
        show [] ++ [((actions.getD 0 default).name, (0 : Int) + icount (actions.getD 0 default))]
          = expectedDescs actions 1
        rw [expectedDescs_succ actions 0, sumIcount_succ actions 0 h0]
        show [((actions.getD 0 default).name, (0 : Int) + icount (actions.getD 0 default))]
          = expectedDescs actions 0
            ++ [((actions.getD 0 default).name,
                 ((actions.take 0).map icount).sum + icount (actions.getD 0 default))]
        simp [expectedDescs]
      hfc := rfl
      hsucc := rfl
      hrend := rfl }
  · rw [hinv]
    unfold remTicks totalTicks
    show ((enumerate (actions.getD 0 default) onlyMarked).length - 0 + 1)
        + ((actions.drop (0 + 1)).map (fun a => queueLen onlyMarked a + 1)).sum
      = (actions.map (fun a => queueLen onlyMarked a + 1)).sum
    have hsum := drop_queue_sum_cons onlyMarked actions 0 h0
    rw [List.drop_zero] at hsum
    rw [hsum]
    simp only [queueLen]
    omega

/-- If `n` ticks after a started run leave the phase Running, the
Running invariant holds there. -/
theorem running_runinv (actions : List Action) (onlyMarked : Bool) (n : Nat)
    (h : (runFromStart actions onlyMarked n).phase = Phase.Running) :
    RunInv onlyMarked actions (runFromStart actions onlyMarked n) := by
  by_cases hne : actions = []
  · exfalso
    subst hne
    have hidle : (invoke [] onlyMarked initState).2.phase = Phase.Idle := rfl
    have : runFromStart [] onlyMarked n = (invoke [] onlyMarked initState).2 := by
      unfold runFromStart
      exact run_not_running onlyMarked _ (by rw [hidle]; intro hc; cases hc) n
    rw [this, hidle] at h
    cases h
  · have hgood := goodinv_run onlyMarked actions n (invoke actions onlyMarked initState).2
      (Or.inl (invoke_runinv onlyMarked actions hne).1)
    rcases hgood with hrun | hfin
    · exact hrun
    · exfalso
      unfold runFromStart at h
      rw [hfin.hphase] at h
      cases h

theorem totalTicks_eq (onlyMarked : Bool) (actions : List Action) :
    totalTicks onlyMarked actions
      = (actions.map (fun a => (enumerate a onlyMarked).length)).sum + actions.length := by
  unfold totalTicks
  induction actions with
  | nil => rfl
  | cons a t ih =>
    simp only [List.map_cons, List.sum_cons, List.length_cons]
    rw [ih]
    simp only [queueLen]
    omega

/-- Concrete action with interval 0..10 and no markers. -/
def actA : Action := { name := "A", frame_range := (0, 10), pose_markers := [] }

/-- Concrete action with interval 0..4 and no markers. -/
def actB : Action := { name := "B", frame_range := (0, 4), pose_markers := [] }

/-- Concrete action with interval 0..10 and a single marker at frame 5. -/
def actAMarked : Action :=
  { name := "A", frame_range := (0, 10), pose_markers := [{ name := "m", frame := 5 }] }

/-- Concrete action with interval 0..1 and no markers. -/
def actC : Action := { name := "C", frame_range := (0, 1), pose_markers := [] }

/-- Concrete action with the fractional interval 2.2..5.6 and no
markers. -/
def actR : Action := { name := "R", frame_range := (q22, q56), pose_markers := [] }

/-- Concrete action with markers at frames 3, 7, 12 in that order. -/
def actM : Action :=
  { name := "M", frame_range := (0, 0),
    pose_markers := [{ name := "a", frame := 3 }, { name := "b", frame := 7 },
                     { name := "c", frame := 12 }] }

/-- Concrete action with markers at frames 7, 3, 12, deliberately not in
numeric order. -/
def actMU : Action :=
  { name := "U", frame_range := (0, 0),
    pose_markers := [{ name := "a", frame := 7 }, { name := "b", frame := 3 },
                     { name := "c", frame := 12 }] }

/-- Concrete action with interval 0..0 (one-frame queue) and no markers. -/
def act0 : Action := { name := "Z", frame_range := (0, 0), pose_markers := [] }

/-- C1 (counterexample): after the scheduler has begun processing action
0 of the single range-branch action `actC` (interval 0..1, queue length
2), the cumulative frame count is 1, not the enumerated-queue-length sum
2: the claimed invariant "cumulative frame count equals the sum of the
enumerated frame-queue lengths of actions 0..i" fails at this state. -/
theorem c1_counterexample :
    (runFromStart [actC] false 0).phase = Phase.Running ∧
    (runFromStart [actC] false 0).actionIndex = 0 ∧
    (runFromStart [actC] false 0).globalFrameEnd = 1 ∧
    (([actC].take (0 + 1)).map (fun a => ((enumerate a false).length : Int))).sum = 2 ∧
    (runFromStart [actC] false 0).globalFrameEnd
      ≠ (([actC].take ((runFromStart [actC] false 0).actionIndex + 1)).map
          (fun a => ((enumerate a false).length : Int))).sum := by
  refine ⟨by decide, by decide, by decide, by decide, by decide⟩

/-- C1 (amended): in every reachable Running state of a run, the
cumulative frame count equals, for actions 0 up to the current action
index, the sum of the interval-derived counts (ceiling of the range end
minus floor of the range start) — not the enumerated-queue lengths. -/
theorem c1_cumulative_count_interval_derived (actions : List Action) (onlyMarked : Bool)
    (n : Nat) (h : (runFromStart actions onlyMarked n).phase = Phase.Running) :
    (runFromStart actions onlyMarked n).globalFrameEnd
      = ((actions.take ((runFromStart actions onlyMarked n).actionIndex + 1)).map
          (fun a => ⌈a.frame_range.2⌉ - ⌊a.frame_range.1⌋)).sum := by
  have hinv := running_runinv actions onlyMarked n h
  rw [hinv.hgfe]
  unfold sumIcount
  congr 1
  apply List.map_congr_left
  intro a _
  show icount a = ⌈a.frame_range.2⌉ - ⌊a.frame_range.1⌋
  unfold icount frame_count
  rw [rat_floor_eq, rat_ceil_eq]

/-- Witness for `c1_cumulative_count_interval_derived` at the concrete
one-action run used in `c1_counterexample`. -/
theorem c1_cumulative_count_interval_derived_witness :
    (runFromStart [actC] false 0).globalFrameEnd
      = (([actC].take ((runFromStart [actC] false 0).actionIndex + 1)).map
          (fun a => ⌈a.frame_range.2⌉ - ⌊a.frame_range.1⌋)).sum :=
  c1_cumulative_count_interval_derived [actC] false 0 (by decide)

/-- C2: whenever an action becomes current, `setup_next_action` adds the
interval-derived count (ceiling of the interval end minus floor of the
interval start) to the cumulative metadata counter, for every state and
either policy flag, independently of which enumeration branch filled the
queue; concretely, intervals 0..10 and 0..4 processed in order produce
the descriptors (A, 10), (B, 14), both in a pure range-branch run and in
a run whose first action took the marked-frames branch with a one-frame
queue. -/
theorem c2_metadata_increment_interval_derived :
    (∀ (onlyMarked : Bool) (s : SchedulerState),
      (setup_next_action onlyMarked s).globalFrameEnd
        = s.globalFrameEnd
          + (⌈(s.actions.getD s.actionIndex default).frame_range.2⌉
             - ⌊(s.actions.getD s.actionIndex default).frame_range.1⌋)) ∧
    (runFromStart [actA, actB] false 18).animationDescs = [("A", 10), ("B", 14)] ∧
    (runFromStart [actAMarked, actB] true 8).animationDescs = [("A", 10), ("B", 14)] := by
  refine ⟨?_, by decide, by decide⟩
  intro onlyMarked s
  show s.globalFrameEnd + icount (s.actions.getD s.actionIndex default) = _
  unfold icount frame_count
  rw [rat_floor_eq, rat_ceil_eq]

/-- C3 (counterexample): calling `invoke` with an empty action list does
return CANCELLED, but not before mutating progress state — starting from
the fresh state, whose rendering flag is false, the failed call leaves
the rendering flag true, so "fails before any state mutation / no
progress state is modified" is false. -/
theorem c3_counterexample :
    (invoke [] false initState).1 = InvokeResult.Cancelled ∧
    initState.progress.rendering = false ∧
    (invoke [] false initState).2.progress.rendering = true :=
  ⟨rfl, rfl, rfl⟩

/-- C3 (amended): `invoke` with an empty action list reports failure
(CANCELLED) and never starts the job — the lifecycle phase is untouched
(Idle for a fresh operator), no descriptors are appended, no frames are
rendered, the cumulative counter is zero and the handoff counter is
untouched — but the empty check runs only after the initialization
mutations: the rendering flag is set, the success flag cleared and the
action total zeroed before the call returns. -/
theorem c3_empty_actions_cancelled (onlyMarked : Bool) (s0 : SchedulerState) :
    (invoke [] onlyMarked s0).1 = InvokeResult.Cancelled ∧
    (invoke [] onlyMarked s0).2.phase = s0.phase ∧
    (invoke [] onlyMarked s0).2.animationDescs = [] ∧
    (invoke [] onlyMarked s0).2.renderedFrames = s0.renderedFrames ∧
    (invoke [] onlyMarked s0).2.finishCount = s0.finishCount ∧
    (invoke [] onlyMarked s0).2.globalFrameEnd = 0 ∧
    (invoke [] onlyMarked s0).2.progress.rendering = true ∧
    (invoke [] onlyMarked s0).2.progress.success = false ∧
    (invoke [] onlyMarked s0).2.progress.actionTotal = 0 :=
  ⟨rfl, rfl, rfl, rfl, rfl, rfl, rfl, rfl, rfl⟩

theorem intRangeIncl_length (lo hi : Int) :
    (intRangeIncl lo hi).length = (hi + 1 - lo).toNat := by
  unfold intRangeIncl
  rw [List.length_map, List.length_range]

theorem intRangeIncl_getD (lo hi : Int) (i : Nat) (h : i < (intRangeIncl lo hi).length) :
    (intRangeIncl lo hi).getD i 0 = lo + i := by
  unfold intRangeIncl at h ⊢
  rw [List.getD_eq_getElem?_getD, List.getElem?_eq_getElem h, List.getElem_map,
    List.getElem_range]
  rfl

/-- C4: for an action whose marked-frames branch is not taken (policy
flag off, or no markers) and whose interval is non-degenerate, the
enumerated queue is the inclusive integer sequence from the floor of the
interval start to the ceiling of the interval end, of length ceiling
minus floor plus one; concretely the interval 2.2..5.6 yields the queue
2, 3, 4, 5, 6 of length 5. -/
theorem c4_range_branch_queue (a : Action) (onlyMarked : Bool)
    (hbranch : onlyMarked = false ∨ a.pose_markers = [])
    (hle : a.frame_range.1 ≤ a.frame_range.2) :
    ((enumerate a onlyMarked).length : Int) = ⌈a.frame_range.2⌉ - ⌊a.frame_range.1⌋ + 1 ∧
    (∀ i, i < (enumerate a onlyMarked).length →
      (enumerate a onlyMarked).getD i 0 = ⌊a.frame_range.1⌋ + i) ∧
    enumerate actR false = [2, 3, 4, 5, 6] ∧
    (enumerate actR false).length = 5 ∧
    actR.frame_range = ((2.2 : ℚ), (5.6 : ℚ)) := by
  have hcond : ¬ (onlyMarked = true ∧ 0 < a.pose_markers.length) := by
    rcases hbranch with hb | hb
    · intro hc
      rw [hb] at hc
      cases hc.1
    · intro hc
      rw [hb] at hc
      simp at hc
  have henum : enumerate a onlyMarked
      = intRangeIncl (frame_count a.frame_range).2.1 (frame_count a.frame_range).2.2 := by
    unfold enumerate
    rw [if_neg hcond]
  have hlohi : Rat.floor a.frame_range.1 ≤ Rat.ceil a.frame_range.2 := by
    rw [rat_floor_eq, rat_ceil_eq]
    exact le_trans (Int.floor_le_floor hle) (Int.floor_le_ceil _)
  refine ⟨?_, ?_, by decide, by decide, ?_⟩
  · rw [← rat_floor_eq, ← rat_ceil_eq, henum, intRangeIncl_length]
    show (((Rat.ceil a.frame_range.2) + 1 - Rat.floor a.frame_range.1).toNat : Int)
      = Rat.ceil a.frame_range.2 - Rat.floor a.frame_range.1 + 1
    omega
  · intro i hi2
    rw [henum] at hi2
    rw [← rat_floor_eq, henum]
    exact intRangeIncl_getD _ _ i hi2
  · show (q22, q56) = ((2.2 : ℚ), (5.6 : ℚ))
    rw [ratq_22, ratq_56]

/-- Witness for `c4_range_branch_queue` at the concrete 2.2..5.6 action
with the policy flag off. -/
theorem c4_range_branch_queue_witness :
    ((enumerate actR false).length : Int)
      = ⌈actR.frame_range.2⌉ - ⌊actR.frame_range.1⌋ + 1 ∧
    (enumerate actR false).getD 2 0 = ⌊actR.frame_range.1⌋ + 2 :=
  ⟨(c4_range_branch_queue actR false (Or.inl rfl) (by decide)).1,
   (c4_range_branch_queue actR false (Or.inl rfl) (by decide)).2.1 2 (by decide)⟩

/-- C5: when the policy flag is on and the action has at least one
marker, the enumerated queue is exactly the markers' frame numbers in
the order the action defines them; concretely markers at 3, 7, 12 yield
the queue 3, 7, 12, and the non-numerically-sorted markers 7, 3, 12
yield 7, 3, 12 in source order. -/
theorem c5_marked_branch_queue (a : Action) (h : a.pose_markers ≠ []) :
    enumerate a true = a.pose_markers.map PoseMarker.frame ∧
    (∀ i, i < (enumerate a true).length →
      (enumerate a true).getD i 0 = (a.pose_markers.getD i default).frame) ∧
    enumerate actM true = [3, 7, 12] ∧
    enumerate actMU true = [7, 3, 12] := by
  have hpos : 0 < a.pose_markers.length := List.length_pos.mpr h
  have henum : enumerate a true = a.pose_markers.map PoseMarker.frame := by
    unfold enumerate
    rw [if_pos ⟨rfl, hpos⟩]
  refine ⟨henum, ?_, by decide, by decide⟩
  intro i hi2
  rw [henum] at hi2 ⊢
  have hi3 : i < a.pose_markers.length := by simpa using hi2
  rw [List.getD_eq_getElem?_getD, List.getElem?_eq_getElem hi2, List.getElem_map,
    getD_default_eq a.pose_markers i hi3]
  rfl

/-- Witness for `c5_marked_branch_queue` at the concrete marker list
3, 7, 12. -/
theorem c5_marked_branch_queue_witness :
    enumerate actM true = actM.pose_markers.map PoseMarker.frame ∧
    (enumerate actM true).getD 1 0 = (actM.pose_markers.getD 1 default).frame :=
  ⟨(c5_marked_branch_queue actM (by decide)).1,
   (c5_marked_branch_queue actM (by decide)).2.1 1 (by decide)⟩

/-- C6: a single scheduler step issues at most one render request: it
either appends exactly the frame at the current queue position to the
render log and advances the queue position by one with the action index
unchanged, or it performs an action transition with the render log
untouched; consequently one TIMER tick grows the render log by at most
one entry. -/
theorem c6_at_most_one_render (onlyMarked : Bool) (s : SchedulerState) :
    ((process_step onlyMarked s).renderedFrames
        = s.renderedFrames ++ [s.frameQueue.getD s.frameQueueIndex 0] ∧
      (process_step onlyMarked s).frameQueueIndex = s.frameQueueIndex + 1 ∧
      (process_step onlyMarked s).actionIndex = s.actionIndex
     ∨ (process_step onlyMarked s).renderedFrames = s.renderedFrames ∧
      (process_step onlyMarked s).actionIndex = s.actionIndex + 1) ∧
    (tick onlyMarked s).renderedFrames.length ≤ s.renderedFrames.length + 1 := by
  have hb : (process_step onlyMarked s).renderedFrames
        = s.renderedFrames ++ [s.frameQueue.getD s.frameQueueIndex 0] ∧
      (process_step onlyMarked s).frameQueueIndex = s.frameQueueIndex + 1 ∧
      (process_step onlyMarked s).actionIndex = s.actionIndex
     ∨ (process_step onlyMarked s).renderedFrames = s.renderedFrames ∧
      (process_step onlyMarked s).actionIndex = s.actionIndex + 1 := by
    by_cases hq : s.frameQueueIndex < s.frameQueue.length
    · left
      rw [process_step_render onlyMarked s hq]
      exact ⟨rfl, rfl, rfl⟩
    · right
      by_cases h2 : s.actionIndex + 1 < s.actions.length
      · rw [process_step_next onlyMarked s (by omega) h2]
        exact ⟨rfl, rfl⟩
      · rw [process_step_last onlyMarked s (by omega) h2]
        exact ⟨rfl, rfl⟩
  refine ⟨hb, ?_⟩
  have hlen : (process_step onlyMarked s).renderedFrames.length
      ≤ s.renderedFrames.length + 1 := by
    rcases hb with ⟨h1, _, _⟩ | ⟨h1, _⟩
    · rw [h1, List.length_append]
      simp
    · rw [h1]
      omega
  by_cases hr : s.phase = Phase.Running
  · unfold tick
    rw [if_pos hr]
    by_cases hf : (process_step onlyMarked s).actions.length
        ≤ (process_step onlyMarked s).actionIndex
    · rw [if_pos hf]
      show (process_step onlyMarked s).renderedFrames.length ≤ s.renderedFrames.length + 1
      exact hlen
    · rw [if_neg hf]
      exact hlen
  · rw [tick_not_running onlyMarked s hr]
    omega

/-- C7: a started run over a non-empty action list reaches the Finished
phase after exactly the sum of the enumerated queue lengths (the render
ticks) plus one transition tick per action, is still Running at every
earlier tick, and by then has issued exactly one render request per
enumerated queue entry; the run is the deterministic function
`runFromStart` of the action list and the policy flag. -/
theorem c7_termination_tick_count (actions : List Action) (onlyMarked : Bool)
    (h : actions ≠ []) :
    (runFromStart actions onlyMarked
        ((actions.map (fun a => (enumerate a onlyMarked).length)).sum + actions.length)).phase
      = Phase.Finished ∧
    (∀ m, m < (actions.map (fun a => (enumerate a onlyMarked).length)).sum + actions.length →
      (runFromStart actions onlyMarked m).phase = Phase.Running) ∧
    (runFromStart actions onlyMarked
        ((actions.map (fun a => (enumerate a onlyMarked).length)).sum
          + actions.length)).renderedFrames.length
      = (actions.map (fun a => (enumerate a onlyMarked).length)).sum := by
  obtain ⟨hinv, hrem⟩ := invoke_runinv onlyMarked actions h
  have htt := totalTicks_eq onlyMarked actions
  obtain ⟨hfin, hbefore⟩ := run_from_runinv onlyMarked actions (totalTicks onlyMarked actions)
    (invoke actions onlyMarked initState).2 hinv hrem
  refine ⟨?_, ?_, ?_⟩
  · unfold runFromStart
    rw [← htt]
    exact hfin.hphase
  · intro m hm
    unfold runFromStart
    exact hbefore m (by omega)
  · unfold runFromStart
    rw [← htt, hfin.hrend]
    unfold renderedBefore
    rw [List.take_length]
    rfl

/-- Witness for `c7_termination_tick_count` at the two-action run with
queue lengths 11 and 5: Finished exactly at tick 18, Running at tick 17. -/
theorem c7_termination_tick_count_witness :
    (runFromStart [actA, actB] false 18).phase = Phase.Finished ∧
    (runFromStart [actA, actB] false 17).phase = Phase.Running ∧
    (runFromStart [actA, actB] false 18).renderedFrames.length
      = ([actA, actB].map (fun a => (enumerate a false).length)).sum := by
  have hc := c7_termination_tick_count [actA, actB] false (by decide)
  have hs : ([actA, actB].map (fun a => (enumerate a false).length)).sum
      + [actA, actB].length = 18 := by decide
  rw [hs] at hc
  exact ⟨hc.1, hc.2.1 17 (by omega), hc.2.2⟩

/-- C8: in any started run the completion handoff runs at most once:
after any number of ticks the handoff counter is at most one, and once
the phase is Finished a further tick is a no-op that changes nothing
(so it cannot re-run the handoff). -/
theorem c8_handoff_at_most_once (actions : List Action) (onlyMarked : Bool) (n : Nat) :
    (runFromStart actions onlyMarked n).finishCount ≤ 1 ∧
    ((runFromStart actions onlyMarked n).phase = Phase.Finished →
      tick onlyMarked (runFromStart actions onlyMarked n)
        = runFromStart actions onlyMarked n) := by
  constructor
  · by_cases hne : actions = []
    · subst hne
      have hidle : (invoke [] onlyMarked initState).2.phase = Phase.Idle := rfl
      have hrw : runFromStart [] onlyMarked n = (invoke [] onlyMarked initState).2 := by
        unfold runFromStart
        exact run_not_running onlyMarked _ (by rw [hidle]; intro hc; cases hc) n
      rw [hrw]
      show (0 : Nat) ≤ 1
      omega
    · have hgood := goodinv_run onlyMarked actions n (invoke actions onlyMarked initState).2
        (Or.inl (invoke_runinv onlyMarked actions hne).1)
      unfold runFromStart
      rcases hgood with hrun | hfin
      · rw [hrun.hfc]
        omega
      · rw [hfin.hfc]
  · intro hfin
    exact tick_not_running onlyMarked _ (by rw [hfin]; intro hc; cases hc)

/-- Witness for `c8_handoff_at_most_once` at the finished state of a
one-action run (queue length 2, finished after 3 ticks). -/
theorem c8_handoff_at_most_once_witness :
    (runFromStart [actC] false 3).finishCount ≤ 1 ∧
    tick false (runFromStart [actC] false 3) = runFromStart [actC] false 3 :=
  ⟨(c8_handoff_at_most_once [actC] false 3).1,
   (c8_handoff_at_most_once [actC] false 3).2 (by decide)⟩

/-- C9: cancelling in any reachable non-terminal (Running) state moves
the phase to Cancelled, leaves the handoff counter at zero (the handoff
is never invoked) and the success flag false, makes any number of
further ticks a no-op, and cancelling again changes nothing. -/
theorem c9_cancel_semantics (actions : List Action) (onlyMarked : Bool) (n m : Nat)
    (h : (runFromStart actions onlyMarked n).phase = Phase.Running) :
    (cancel (runFromStart actions onlyMarked n)).phase = Phase.Cancelled ∧
    (cancel (runFromStart actions onlyMarked n)).finishCount = 0 ∧
    (cancel (runFromStart actions onlyMarked n)).progress.success = false ∧
    run onlyMarked m (cancel (runFromStart actions onlyMarked n))
      = cancel (runFromStart actions onlyMarked n) ∧
    cancel (cancel (runFromStart actions onlyMarked n))
      = cancel (runFromStart actions onlyMarked n) := by
  have hinv := running_runinv actions onlyMarked n h
  have hc := cancel_running (runFromStart actions onlyMarked n) h
  have hph : (cancel (runFromStart actions onlyMarked n)).phase = Phase.Cancelled := by
    rw [hc]
  refine ⟨hph, ?_, ?_, ?_, ?_⟩
  · rw [hc]
    show (runFromStart actions onlyMarked n).finishCount = 0
    exact hinv.hfc
  · rw [hc]
    show (runFromStart actions onlyMarked n).progress.success = false
    exact hinv.hsucc
  · exact run_not_running onlyMarked _ (by rw [hph]; intro hc2; cases hc2) m
  · exact cancel_not_running _ (by rw [hph]; intro hc2; cases hc2)

/-- Witness for `c9_cancel_semantics`: a five-action run cancelled after
two actions have been fully processed (tick 4, third action current). -/
theorem c9_cancel_semantics_witness :
    (cancel (runFromStart [act0, act0, act0, act0, act0] false 4)).phase = Phase.Cancelled ∧
    (cancel (runFromStart [act0, act0, act0, act0, act0] false 4)).finishCount = 0 ∧
    (cancel (runFromStart [act0, act0, act0, act0, act0] false 4)).progress.success = false ∧
    run false 3 (cancel (runFromStart [act0, act0, act0, act0, act0] false 4))
      = cancel (runFromStart [act0, act0, act0, act0, act0] false 4) ∧
    cancel (cancel (runFromStart [act0, act0, act0, act0, act0] false 4))
      = cancel (runFromStart [act0, act0, act0, act0, act0] false 4) :=
  c9_cancel_semantics [act0, act0, act0, act0, act0] false 4 3 (by decide)

/-- C10: in every reachable Running state the descriptor list already
contains one entry per action up to and including the current one — the
entry for the current action is appended the moment the action becomes
current, before any of its frames are rendered — its last entry carries
the current action's name and the cumulative counter, and cancelling
leaves the descriptor list untouched, so a mid-action cancellation
retains the entry for the incomplete current action. -/
theorem c10_descriptor_on_begin (actions : List Action) (onlyMarked : Bool) (n : Nat)
    (h : (runFromStart actions onlyMarked n).phase = Phase.Running) :
    (runFromStart actions onlyMarked n).animationDescs.length
      = (runFromStart actions onlyMarked n).actionIndex + 1 ∧
    (runFromStart actions onlyMarked n).animationDescs.getLast?
      = some ((actions.getD (runFromStart actions onlyMarked n).actionIndex default).name,
              (runFromStart actions onlyMarked n).globalFrameEnd) ∧
    (cancel (runFromStart actions onlyMarked n)).animationDescs
      = (runFromStart actions onlyMarked n).animationDescs := by
  have hinv := running_runinv actions onlyMarked n h
  refine ⟨?_, ?_, ?_⟩
  · rw [hinv.hdescs, expectedDescs_length]
  · rw [hinv.hdescs, hinv.hgfe, expectedDescs_succ, List.getLast?_concat]
  · rw [cancel_running _ h]

/-- Witness for `c10_descriptor_on_begin`: the two-action run at tick 12,
when the second action has just become current and none of its frames
have been rendered. -/
theorem c10_descriptor_on_begin_witness :
    (runFromStart [actA, actB] false 12).animationDescs.length
      = (runFromStart [actA, actB] false 12).actionIndex + 1 ∧
    (runFromStart [actA, actB] false 12).animationDescs.getLast?
      = some (([actA, actB].getD (runFromStart [actA, actB] false 12).actionIndex default).name,
              (runFromStart [actA, actB] false 12).globalFrameEnd) ∧
    (cancel (runFromStart [actA, actB] false 12)).animationDescs
      = (runFromStart [actA, actB] false 12).animationDescs :=
  c10_descriptor_on_begin [actA, actB] false 12 (by decide)

end SpriteSheets
